import Mathlib

/-!
Verification development for the `imported` dependency-analysis tool.

The embedding follows the main implementation file (the `Searcher` class):
module constants, the memoized existence check, the tiered import-path
resolver, the recursive import extractor with a shared accumulator set,
and the two query operations together with the command output.
Filesystem reads and the external parser are modelled as an environment:
`stat` gives the result of `fs.statSync(p).isFile()` (`none` when the call
throws), and `files` gives the parsed import-statement occurrences of a
file (`error` when `fs.readFileSync` or `parse` throws).
-/

namespace Imported

/-- Split a character list at every occurrence of the separator; the
accumulator holds the current segment reversed. -/
def splitCharAux (c : Char) : List Char → List Char → List (List Char)
  | [], acc => [acc.reverse]
  | x :: xs, acc =>
      if x = c then acc.reverse :: splitCharAux c xs []
      else splitCharAux c xs (x :: acc)

/-- Split a string at every occurrence of the separator character. -/
def splitChar (c : Char) (s : String) : List String :=
  (splitCharAux c s.data []).map (fun l => String.mk l)

/-- Interleave the separator character between the given parts. -/
def joinCharAux (c : Char) : List (List Char) → List Char
  | [] => []
  | [x] => x
  | x :: xs => x ++ c :: joinCharAux c xs

/-- Join strings with the separator character between them. -/
def joinChar (c : Char) (parts : List String) : String :=
  String.mk (joinCharAux c (parts.map String.data))

/-- Whether the first character of the string is a dot, the test
`importPath.startsWith(".")` performs. -/
def startsWithDot (s : String) : Bool :=
  match s.data with
  | [] => false
  | ch :: _ => ch = '.'

/-- One normalization step of Node posix path handling: skip empty and
dot segments, resolve a dot-dot segment against the stack. -/
def normStep (acc : List String) (seg : String) : List String :=
  if seg = "" ∨ seg = "." then acc
  else if seg = ".." then
    match acc with
    | [] => [".."]
    | t :: rest => if t = ".." then seg :: t :: rest else rest
  else seg :: acc

/-- Model of Node posix `path.join` for the relative, slash-free-suffix
arguments this tool produces: the parts are joined with a slash and the
result is normalized segment by segment; an empty result becomes a dot. -/
def pathJoin (parts : List String) : String :=
  let joined := joinChar '/' (parts.filter (fun p => p ≠ ""))
  let stack := (splitChar '/' joined).foldl normStep []
  if stack.isEmpty then "." else joinChar '/' stack.reverse

/-- Model of Node posix `path.dirname` for relative paths: drop the last
segment; a single-segment path has dirname dot. -/
def pathDirname (p : String) : String :=
  let segs := ((splitChar '/' p).reverse).dropWhile (fun s => s = "")
  match segs with
  | [] => "."
  | _ :: rest => if rest.isEmpty then "." else joinChar '/' rest.reverse

/-- Model of Node posix `path.extname`: the suffix of the last path segment
from its final dot, empty when there is no dot or the only dot is the
leading character of the segment. -/
def pathExtname (p : String) : String :=
  let base := ((splitChar '/' p).getLast?).getD ""
  if base = ".." then ""
  else
    let parts := splitChar '.' base
    if parts.length ≤ 1 then ""
    else if parts.head? = some "" ∧ parts.length = 2 then ""
    else "." ++ (parts.getLast?).getD ""

def MODULE_EXTENSIONS : List String := [".js", ".jsx", ".ts", ".tsx"]

def RESOLVE_DIRS : List String := ["app", "packages"]

def RESOLVE_EXTENSIONS : List String := ["js", "jsx", "ts", "tsx", "json"]

/-- One import-statement occurrence as delivered by the parser traversal,
in source order.  A static import, a named re-export or a wildcard
re-export with an empty value models the falsy source check of the code,
which skips it.  A dynamic import carries either the literal string value
or, when its argument is not a plain string literal, the AST type name of
that argument. -/
inductive ImportStmt where
  | importDecl (value : String)
  | importExprLit (value : String)
  | importExprDyn (srcType : String)
  | exportNamed (value : String)
  | exportAll (value : String)
deriving DecidableEq, Repr

/-- The external world of one run: `stat p` is the outcome of
`fs.statSync(p).isFile()` (`none` when `statSync` throws, `some b` when it
returns a stats object with `isFile() = b`), and `files f` is the outcome
of reading and parsing `f` (`error` when either throws). -/
structure Env where
  stat : String → Option Bool
  files : String → Except Unit (List ImportStmt)

/-- The boolean the existence check computes from the filesystem: a thrown
stat is normalized to false. -/
def fileExists (env : Env) (filename : String) : Bool :=
  match env.stat filename with
  | some b => b
  | none => false

/-- The memoized existence check `fileExists` of the `Searcher` class,
with the cache state passed explicitly: returns the boolean, the new
cache, and the number of real `statSync` calls performed (zero on a cache
hit, one on a miss). -/
def fileExistsC (env : Env) (cache : List (String × Bool)) (filename : String) :
    Bool × List (String × Bool) × Nat :=
  match cache.lookup filename with
  | some b => (b, cache, 0)
  | none =>
      let ex := fileExists env filename
      (ex, (filename, ex) :: cache, 1)

/-- The extension loop of `resolveRelativeImportPath`: for each extension
in order, try `directory/importPath.ext` and then
`directory/importPath/index.ext`. -/
def resolveExtLoop (env : Env) (directory importPath : String) :
    List String → Option String
  | [] => none
  | extension :: rest =>
      let resolvedWithExtension := pathJoin [directory, importPath ++ "." ++ extension]
      if fileExists env resolvedWithExtension then some resolvedWithExtension
      else
        let resolvedIndex := pathJoin [directory, importPath, "index." ++ extension]
        if fileExists env resolvedIndex then some resolvedIndex
        else resolveExtLoop env directory importPath rest

/-- `resolveRelativeImportPath(directory, importPath)`: first the exact
join, then the extension loop over `RESOLVE_EXTENSIONS`. -/
def resolveRelativeImportPath (env : Env) (directory importPath : String) :
    Option String :=
  let resolvedExact := pathJoin [directory, importPath]
  if fileExists env resolvedExact then some resolvedExact
  else resolveExtLoop env directory importPath RESOLVE_EXTENSIONS

/-- The rooted-directory loop of `resolveImportPath`: try each resolve
root in order and keep the first hit. -/
def resolveDirsLoop (env : Env) (importPath : String) : List String → Option String
  | [] => none
  | dir :: rest =>
      match resolveRelativeImportPath env dir importPath with
      | some result => some result
      | none => resolveDirsLoop env importPath rest

/-- `resolveImportPath(filename, importPath)`: a specifier starting with a
dot resolves against the directory of the importing file only; any other
specifier is tried against the fixed resolve roots in order. -/
def resolveImportPath (env : Env) (filename importPath : String) : Option String :=
  if startsWithDot importPath then
    resolveRelativeImportPath env (pathDirname filename) importPath
  else
    resolveDirsLoop env importPath RESOLVE_DIRS

/-- A diagnostic printed with `console.error` during extraction: either
the message for a dynamic import whose argument is not a plain string
literal (carrying the AST type of the argument and the file being
scanned), or the message naming a file whose read or parse failed. -/
inductive Diag where
  | dynamicImport (srcType : String) (filename : String)
  | parseError (filename : String)
deriving DecidableEq, Repr

/-- Whether reading and parsing the file throws. -/
def isErr : Except Unit (List ImportStmt) → Bool
  | .error _ => true
  | .ok _ => false

/-- Outcome of one extraction call: the accumulator set after the call (as
an insertion-ordered duplicate-free list, modelling the shared JS `Set`),
the filenames this call read and parsed (in order), the diagnostics this
call emitted (in order), and whether an exception propagated out of it. -/
structure Out where
  imports : List String
  trace : List String
  diags : List Diag
  err : Bool
deriving DecidableEq, Repr

/-- The shared body of the four visitor callbacks, with the recursive
expansion passed in as `recur`: resolve the raw specifier; an
unresolvable one is dropped; a resolved path already in the accumulator
is skipped; otherwise it is added and, in follow mode, recursively
expanded with the same accumulator. -/
def handleRaw (recur : String → List String → Option Out) (env : Env)
    (filename : String) (follow : Bool) (rawPath : String)
    (imports : List String) : Option Out :=
  match resolveImportPath env filename rawPath with
  | none => some ⟨imports, [], [], false⟩
  | some importPath =>
    if imports.contains importPath then some ⟨imports, [], [], false⟩
    else if follow then recur importPath (imports ++ [importPath])
    else some ⟨imports ++ [importPath], [], [], false⟩

/-- One visitor callback.  Static imports and the two re-export forms
skip a falsy source value; a dynamic import whose argument is not a plain
string literal prints the unexpected-type diagnostic and is skipped; every
other case resolves the raw specifier. -/
def handleStmt (recur : String → List String → Option Out) (env : Env)
    (filename : String) (follow : Bool) (stmt : ImportStmt)
    (imports : List String) : Option Out :=
  match stmt with
  | .importExprDyn srcType =>
      some ⟨imports, [], [Diag.dynamicImport srcType filename], false⟩
  | .importDecl v =>
      if v = "" then some ⟨imports, [], [], false⟩
      else handleRaw recur env filename follow v imports
  | .exportNamed v =>
      if v = "" then some ⟨imports, [], [], false⟩
      else handleRaw recur env filename follow v imports
  | .exportAll v =>
      if v = "" then some ⟨imports, [], [], false⟩
      else handleRaw recur env filename follow v imports
  | .importExprLit v => handleRaw recur env filename follow v imports

/-- Process the visitor callbacks in source order; an escaping exception
stops the remaining statements of the file. -/
def processStmts (recur : String → List String → Option Out) (env : Env)
    (filename : String) (follow : Bool) :
    List ImportStmt → List String → Option Out
  | [], imports => some ⟨imports, [], [], false⟩
  | stmt :: rest, imports =>
    match handleStmt recur env filename follow stmt imports with
    | none => none
    | some o1 =>
      if o1.err then some o1
      else
        match processStmts recur env filename follow rest o1.imports with
        | none => none
        | some o2 => some ⟨o2.imports, o1.trace ++ o2.trace, o1.diags ++ o2.diags, o2.err⟩

/-- `getImports(filename, follow, imports)`: files without a recognized
module extension are not parsed; otherwise the file is read and parsed
and its statements are processed in order.  A failed read or parse, or an
exception escaping a recursive call inside the traversal, is caught once
here: the parse-error diagnostic naming this file is printed and the
exception is re-raised.  `fuel` bounds the recursion depth; `none` means
the bound was hit. -/
def getImportsF (env : Env) : Nat → String → Bool → List String → Option Out
  | 0, _, _, _ => none
  | fuel + 1, filename, follow, imports =>
    if MODULE_EXTENSIONS.contains (pathExtname filename) then
      match env.files filename with
      | .error _ => some ⟨imports, [filename], [Diag.parseError filename], true⟩
      | .ok stmts =>
        match
          processStmts (fun p im => getImportsF env fuel p follow im) env
            filename follow stmts imports
        with
        | none => none
        | some o =>
          if o.err then
            some ⟨o.imports, filename :: o.trace,
                  o.diags ++ [Diag.parseError filename], true⟩
          else some ⟨o.imports, filename :: o.trace, o.diags, false⟩
    else some ⟨imports, [], [], false⟩

/-- Add one path to the accumulating result set, keeping insertion
order. -/
def addToSet (acc : List String) (p : String) : List String :=
  if acc.contains p then acc else acc ++ [p]

/-- Pour one per-file result set into the accumulating result set, in the
per-file insertion order. -/
def mergeSet (acc : List String) (ps : List String) : List String :=
  ps.foldl addToSet acc

/-- `getAllImports(filenames, follow)`: each file is extracted with a
fresh per-file accumulator and the results are poured into one set; an
exception from any extraction aborts the iteration and propagates. -/
def getAllImportsF (env : Env) (fuel : Nat) (follow : Bool) :
    List String → List String → Option (List String × Bool)
  | [], acc => some (acc, false)
  | f :: rest, acc =>
    match getImportsF env fuel f follow [] with
    | none => none
    | some o =>
      if o.err then some (acc, true)
      else getAllImportsF env fuel follow rest (mergeSet acc o.imports)

/-- `listDependencies(patterns, follow)` with the glob result passed in as
`files`: the union of the per-file extractions. -/
def listDependencies (env : Env) (fuel : Nat) (files : List String) (follow : Bool) :
    Option (List String × Bool) :=
  getAllImportsF env fuel follow files []

/-- `listDependants(file, patterns)` with the glob result passed in as
`modules`: walk the module files in the given order, extract each one
without following, and keep those whose direct import set contains the
target file. -/
def listDependantsF (env : Env) (fuel : Nat) (file : String) :
    List String → List String → Option (List String × Bool)
  | [], acc => some (acc, false)
  | m :: rest, acc =>
    match getImportsF env fuel m false [] with
    | none => none
    | some o =>
      if o.err then some (acc, true)
      else
        listDependantsF env fuel file rest
          (if o.imports.contains file then acc ++ [m] else acc)

/-- The lines the `ls-dependencies` command prints on a successful run:
the result set of `listDependencies` in its own order, one per line, with
no reordering. -/
def lsDependenciesOutput (env : Env) (fuel : Nat) (files : List String)
    (follow : Bool) : Option (List String) :=
  match listDependencies env fuel files follow with
  | some (res, false) => some res
  | _ => none

/-- Existence oracle from a finite list of present files: stat succeeds
everywhere and reports a file exactly for the listed paths. -/
def statOf (trues : List String) : String → Option Bool :=
  fun p => some (trues.contains p)

/-- Priority environment: only `d/x.json` and `d/x/index.js` exist. -/
def env1 : Env :=
  { stat := statOf ["d/x.json", "d/x/index.js"]
    files := fun _ => .error () }

/-- Cycle environment: `a.js` and `b.js` import each other. -/
def env2 : Env :=
  { stat := statOf ["a.js", "b.js"]
    files := fun f =>
      if f = "a.js" then .ok [.importDecl "./b"]
      else if f = "b.js" then .ok [.importDecl "./a"]
      else .error () }

/-- Diamond environment: `a.js` imports `b.js` and `c.js`, and both of
those files import `d.js`. -/
def env3 : Env :=
  { stat := statOf ["a.js", "b.js", "c.js", "d.js"]
    files := fun f =>
      if f = "a.js" then .ok [.importDecl "./b", .importDecl "./c"]
      else if f = "b.js" then .ok [.importDecl "./d"]
      else if f = "c.js" then .ok [.importDecl "./d"]
      else if f = "d.js" then .ok []
      else .error () }

/-- Ordering environment: `a.js` imports `z.js` and `t.js`, `b.js`
imports `y.js` and `t.js`. -/
def env4 : Env :=
  { stat := statOf ["a.js", "b.js", "z.js", "y.js", "t.js"]
    files := fun f =>
      if f = "a.js" then .ok [.importDecl "./z", .importDecl "./t"]
      else if f = "b.js" then .ok [.importDecl "./y", .importDecl "./t"]
      else .error () }

/-- The candidates the extension loop probes, in probe order: for each
extension first the inferred-extension candidate and then the index
candidate of the same extension. -/
def extCandidates (directory importPath : String) : List String → List String
  | [] => []
  | extension :: rest =>
      pathJoin [directory, importPath ++ "." ++ extension] ::
      pathJoin [directory, importPath, "index." ++ extension] ::
      extCandidates directory importPath rest

/-- All candidates of one search root, in probe order: the exact join
first, then the extension loop candidates. -/
def relativeCandidates (directory importPath : String) : List String :=
  pathJoin [directory, importPath] ::
    extCandidates directory importPath RESOLVE_EXTENSIONS

/-- The raw specifier a statement submits to the resolver, if any: the
three source-value forms skip a falsy value, a literal dynamic import is
always submitted, a non-literal dynamic import never is. -/
def stmtSpec : ImportStmt → Option String
  | .importDecl v => if v = "" then none else some v
  | .exportNamed v => if v = "" then none else some v
  | .exportAll v => if v = "" then none else some v
  | .importExprLit v => some v
  | .importExprDyn _ => none

/-- The raw specifiers of a statement list, in order. -/
def directSpecs (stmts : List ImportStmt) : List String :=
  stmts.filterMap stmtSpec

theorem resolveExtLoop_eq_find (env : Env) (d ip : String) (exts : List String) :
    resolveExtLoop env d ip exts =
      (extCandidates d ip exts).find? (fun c => fileExists env c) := by
  induction exts with
  | nil => rfl
  | cons e rest ih =>
      simp only [resolveExtLoop, extCandidates, List.find?_cons]
      by_cases h1 : fileExists env (pathJoin [d, ip ++ "." ++ e]) <;>
        by_cases h2 : fileExists env (pathJoin [d, ip, "index." ++ e]) <;>
        simp [h1, h2, ih]

theorem resolveRelativeImportPath_eq_find (env : Env) (d ip : String) :
    resolveRelativeImportPath env d ip =
      (relativeCandidates d ip).find? (fun c => fileExists env c) := by
  simp only [resolveRelativeImportPath, relativeCandidates, List.find?_cons]
  by_cases h : fileExists env (pathJoin [d, ip]) <;>
    simp [h, resolveExtLoop_eq_find]

theorem resolveRelative_fileExists (env : Env) (d ip p : String)
    (h : resolveRelativeImportPath env d ip = some p) : fileExists env p = true := by
  rw [resolveRelativeImportPath_eq_find] at h
  exact List.find?_some h

theorem resolveDirsLoop_fileExists (env : Env) (ip : String) (dirs : List String)
    (p : String) (h : resolveDirsLoop env ip dirs = some p) :
    fileExists env p = true := by
  induction dirs with
  | nil => simp [resolveDirsLoop] at h
  | cons d rest ih =>
      rw [resolveDirsLoop] at h
      cases hr : resolveRelativeImportPath env d ip with
      | none => rw [hr] at h; exact ih h
      | some q =>
          rw [hr] at h
          injection h with h
          subst h
          exact resolveRelative_fileExists env d ip q hr

theorem resolveImportPath_fileExists (env : Env) (f ip p : String)
    (h : resolveImportPath env f ip = some p) : fileExists env p = true := by
  unfold resolveImportPath at h
  by_cases hd : startsWithDot ip = true
  · rw [if_pos hd] at h
    exact resolveRelative_fileExists env (pathDirname f) ip p h
  · rw [if_neg hd] at h
    exact resolveDirsLoop_fileExists env ip RESOLVE_DIRS p h

theorem contains_iff_mem (l : List String) (a : String) :
    l.contains a = true ↔ a ∈ l := by
  simp

/-- Invariant of statement-level processing with input accumulator
`imports`: the accumulator grows by existence-checked paths only, every
file read here was newly added, no file is read twice, and an escaping
exception coincides with a failed read in the read trace and is
accompanied by its parse-error diagnostic. -/
structure GoodP (env : Env) (imports : List String) (o : Out) : Prop where
  grows : ∃ ext, o.imports = imports ++ ext ∧ ∀ p ∈ ext, fileExists env p = true
  traceNew : ∀ p ∈ o.trace, p ∉ imports ∧ p ∈ o.imports
  traceOnce : ∀ p, o.trace.count p ≤ 1
  errIff : o.err = true ↔ ∃ g ∈ o.trace, isErr (env.files g) = true
  errDiag : o.err = true →
    ∃ g ∈ o.trace, isErr (env.files g) = true ∧ Diag.parseError g ∈ o.diags

/-- Invariant of one extraction call rooted at `f`: as `GoodP`, except
that the root file itself is read unconditionally, so it can be read a
second time when a cycle reaches it and it was not in the accumulator. -/
structure GoodG (env : Env) (f : String) (imports : List String) (o : Out) : Prop where
  grows : ∃ ext, o.imports = imports ++ ext ∧ ∀ p ∈ ext, fileExists env p = true
  traceNew : ∀ p ∈ o.trace, p = f ∨ (p ∉ imports ∧ p ∈ o.imports)
  traceOnce : ∀ p, p ≠ f → o.trace.count p ≤ 1
  rootTwice : o.trace.count f ≤ 2
  rootOnce : f ∈ imports → o.trace.count f ≤ 1
  errIff : o.err = true ↔ ∃ g ∈ o.trace, isErr (env.files g) = true
  errDiag : o.err = true →
    ∃ g ∈ o.trace, isErr (env.files g) = true ∧ Diag.parseError g ∈ o.diags

theorem goodP_nil (env : Env) (imports : List String) :
    GoodP env imports ⟨imports, [], [], false⟩ := by
  refine ⟨⟨[], by simp, by simp⟩, by simp, by simp, by simp, by simp⟩

theorem goodG_nil (env : Env) (f : String) (imports : List String) :
    GoodG env f imports ⟨imports, [], [], false⟩ := by
  refine ⟨⟨[], by simp, by simp⟩, by simp, by simp, by simp, by simp, by simp, by simp⟩

theorem goodG_readError (env : Env) (f : String) (imports : List String)
    (hf : isErr (env.files f) = true) :
    GoodG env f imports ⟨imports, [f], [Diag.parseError f], true⟩ := by
  refine ⟨⟨[], by simp, by simp⟩, ?_, ?_, ?_, ?_, ?_, ?_⟩
  · intro p hp
    simp only [List.mem_singleton] at hp
    exact Or.inl hp
  · intro p hp
    simp [List.count_singleton, hp]
  · simp [List.count_singleton]
  · intro _
    simp [List.count_singleton]
  · simp [hf]
  · intro _
    exact ⟨f, by simp, hf, by simp⟩

theorem handleRaw_good {env : Env} {recur : String → List String → Option Out}
    {filename : String} {follow : Bool} {rawPath : String}
    {imports : List String} {o : Out}
    (hrec : ∀ p im o2, recur p im = some o2 → GoodG env p im o2)
    (h : handleRaw recur env filename follow rawPath imports = some o) :
    GoodP env imports o := by
  unfold handleRaw at h
  split at h
  · injection h with h
    subst h
    exact goodP_nil env imports
  · rename_i p hr
    split at h
    · injection h with h
      subst h
      exact goodP_nil env imports
    · rename_i hc
      have hpn : p ∉ imports := fun hmem => hc ((contains_iff_mem imports p).mpr hmem)
      have hpe : fileExists env p = true :=
        resolveImportPath_fileExists env filename rawPath p hr
      split at h
      · have hg := hrec p (imports ++ [p]) o h
        obtain ⟨ext, hext, hxall⟩ := hg.grows
        refine ⟨⟨p :: ext, ?_, ?_⟩, ?_, ?_, hg.errIff, hg.errDiag⟩
        · rw [hext, List.append_assoc]
          rfl
        · intro q hq
          rcases List.mem_cons.mp hq with hq | hq
          · subst hq; exact hpe
          · exact hxall q hq
        · intro q hq
          rcases hg.traceNew q hq with hq2 | ⟨hq2, hq3⟩
          · subst hq2
            refine ⟨hpn, ?_⟩
            rw [hext]
            simp
          · constructor
            · intro hmem
              exact hq2 (List.mem_append_left [p] hmem)
            · exact hq3
        · intro q
          by_cases hqp : q = p
          · subst hqp
            exact hg.rootOnce (by simp)
          · exact hg.traceOnce q hqp
      · injection h with h
        subst h
        refine ⟨⟨[p], rfl, ?_⟩, by simp, by simp, by simp, by simp⟩
        intro q hq
        simp only [List.mem_singleton] at hq
        subst hq
        exact hpe

theorem handleStmt_good {env : Env} {recur : String → List String → Option Out}
    {filename : String} {follow : Bool} {stmt : ImportStmt}
    {imports : List String} {o : Out}
    (hrec : ∀ p im o2, recur p im = some o2 → GoodG env p im o2)
    (h : handleStmt recur env filename follow stmt imports = some o) :
    GoodP env imports o := by
  cases stmt with
  | importExprDyn t =>
      rw [handleStmt] at h
      injection h with h
      subst h
      refine ⟨⟨[], by simp, by simp⟩, by simp, by simp, by simp, by simp⟩
  | importDecl v =>
      rw [handleStmt] at h
      by_cases hv : v = ""
      · rw [if_pos hv] at h
        injection h with h
        subst h
        exact goodP_nil env imports
      · rw [if_neg hv] at h
        exact handleRaw_good hrec h
  | exportNamed v =>
      rw [handleStmt] at h
      by_cases hv : v = ""
      · rw [if_pos hv] at h
        injection h with h
        subst h
        exact goodP_nil env imports
      · rw [if_neg hv] at h
        exact handleRaw_good hrec h
  | exportAll v =>
      rw [handleStmt] at h
      by_cases hv : v = ""
      · rw [if_pos hv] at h
        injection h with h
        subst h
        exact goodP_nil env imports
      · rw [if_neg hv] at h
        exact handleRaw_good hrec h
  | importExprLit v =>
      rw [handleStmt] at h
      exact handleRaw_good hrec h

theorem goodP_comp {env : Env} {imports : List String} {o1 o2 : Out}
    (g1 : GoodP env imports o1) (he : o1.err = false)
    (g2 : GoodP env o1.imports o2) :
    GoodP env imports
      ⟨o2.imports, o1.trace ++ o2.trace, o1.diags ++ o2.diags, o2.err⟩ := by
  obtain ⟨e1, he1, hx1⟩ := g1.grows
  obtain ⟨e2, he2, hx2⟩ := g2.grows
  refine ⟨⟨e1 ++ e2, ?_, ?_⟩, ?_, ?_, ?_, ?_⟩
  · rw [he2, he1, List.append_assoc]
  · intro q hq
    rcases List.mem_append.mp hq with hq | hq
    · exact hx1 q hq
    · exact hx2 q hq
  · intro q hq
    rcases List.mem_append.mp hq with hq | hq
    · obtain ⟨hq1, hq2⟩ := g1.traceNew q hq
      refine ⟨hq1, ?_⟩
      rw [he2]
      exact List.mem_append_left e2 hq2
    · obtain ⟨hq1, hq2⟩ := g2.traceNew q hq
      refine ⟨?_, hq2⟩
      intro hmem
      apply hq1
      rw [he1]
      exact List.mem_append_left e1 hmem
  · intro q
    rw [List.count_append]
    by_cases hq1 : q ∈ o1.trace
    · have hq2 : q ∉ o2.trace := by
        intro hmem
        exact (g2.traceNew q hmem).1 (g1.traceNew q hq1).2
      have : o2.trace.count q = 0 := List.count_eq_zero.mpr hq2
      rw [this]
      simpa using g1.traceOnce q
    · have : o1.trace.count q = 0 := List.count_eq_zero.mpr hq1
      rw [this]
      simpa using g2.traceOnce q
  · constructor
    · intro he2
      obtain ⟨g, hg, hge⟩ := g2.errIff.mp he2
      exact ⟨g, List.mem_append_right o1.trace hg, hge⟩
    · rintro ⟨g, hg, hge⟩
      rcases List.mem_append.mp hg with hg | hg
      · exact absurd (g1.errIff.mpr ⟨g, hg, hge⟩) (by simp [he])
      · exact g2.errIff.mpr ⟨g, hg, hge⟩
  · intro he2
    obtain ⟨g, hg, hge, hgd⟩ := g2.errDiag he2
    exact ⟨g, List.mem_append_right o1.trace hg, hge,
      List.mem_append_right o1.diags hgd⟩

theorem processStmts_good {env : Env} {recur : String → List String → Option Out}
    {filename : String} {follow : Bool}
    (hrec : ∀ p im o2, recur p im = some o2 → GoodG env p im o2) :
    ∀ stmts imports o,
      processStmts recur env filename follow stmts imports = some o →
      GoodP env imports o := by
  intro stmts
  induction stmts with
  | nil =>
      intro imports o h
      rw [processStmts] at h
      injection h with h
      subst h
      exact goodP_nil env imports
  | cons stmt rest ih =>
      intro imports o h
      rw [processStmts] at h
      split at h
      · cases h
      · rename_i o1 h1
        have g1 := handleStmt_good hrec h1
        split at h
        · rename_i he
          injection h with h
          subst h
          exact g1
        · rename_i he
          have he' : o1.err = false := by simpa using he
          split at h
          · cases h
          · rename_i o2 h2
            injection h with h
            subst h
            exact goodP_comp g1 he' (ih o1.imports o2 h2)

theorem goodG_wrap {env : Env} {filename : String} {imports : List String}
    {o : Out} {stmts : List ImportStmt} (dg : List Diag)
    (hfile : env.files filename = .ok stmts) (g : GoodP env imports o) :
    GoodG env filename imports
      ⟨o.imports, filename :: o.trace, o.diags ++ dg, o.err⟩ := by
  refine ⟨g.grows, ?_, ?_, ?_, ?_, ?_, ?_⟩
  · intro p hp
    rcases List.mem_cons.mp hp with hp | hp
    · exact Or.inl hp
    · exact Or.inr (g.traceNew p hp)
  · intro p hp
    rw [List.count_cons]
    have hne : ¬(filename = p) := fun hh => hp hh.symm
    simpa [hne] using g.traceOnce p
  · rw [List.count_cons, if_pos (beq_self_eq_true filename)]
    have h1 := g.traceOnce filename
    omega
  · intro hmem
    have hnot : filename ∉ o.trace := by
      intro hin
      exact (g.traceNew filename hin).1 hmem
    rw [List.count_cons, List.count_eq_zero.mpr hnot]
    simp
  · constructor
    · intro he
      obtain ⟨g2, hg2, hge⟩ := g.errIff.mp he
      exact ⟨g2, List.mem_cons_of_mem filename hg2, hge⟩
    · rintro ⟨g2, hg2, hge⟩
      rcases List.mem_cons.mp hg2 with hg2 | hg2
      · subst hg2
        rw [hfile] at hge
        simp [isErr] at hge
      · exact g.errIff.mpr ⟨g2, hg2, hge⟩
  · intro he
    obtain ⟨g2, hg2, hge, hgd⟩ := g.errDiag he
    exact ⟨g2, List.mem_cons_of_mem filename hg2, hge,
      List.mem_append_left dg hgd⟩

/-- Master invariant of the extraction recursion. -/
theorem getImportsF_good (env : Env) :
    ∀ fuel filename follow imports o,
      getImportsF env fuel filename follow imports = some o →
      GoodG env filename imports o := by
  intro fuel
  induction fuel with
  | zero =>
      intro _ _ _ _ h
      simp [getImportsF] at h
  | succ n ih =>
      intro filename follow imports o h
      rw [getImportsF] at h
      split at h
      · -- module extension branch
        split at h
        · rename_i e hf
          injection h with h
          subst h
          exact goodG_readError env filename imports (by rw [hf]; rfl)
        · rename_i stmts hf
          split at h
          · cases h
          · rename_i o' hp
            have g := processStmts_good
              (fun p im o2 h2 => ih p follow im o2 h2) stmts imports o' hp
            split at h
            · rename_i he
              injection h with h
              subst h
              have hgw := goodG_wrap [Diag.parseError filename] hf g
              rw [he] at hgw
              exact hgw
            · rename_i he
              injection h with h
              subst h
              have he' : o'.err = false := by simpa using he
              have hgw := goodG_wrap [] hf g
              rw [he', List.append_nil] at hgw
              exact hgw
      · injection h with h
        subst h
        exact goodG_nil env filename imports

theorem processStmts_append (recur : String → List String → Option Out) (env : Env)
    (filename : String) (follow : Bool) (A B : List ImportStmt) :
    ∀ imports,
      processStmts recur env filename follow (A ++ B) imports =
        match processStmts recur env filename follow A imports with
        | none => none
        | some o1 =>
          if o1.err then some o1
          else
            match processStmts recur env filename follow B o1.imports with
            | none => none
            | some o2 =>
              some ⟨o2.imports, o1.trace ++ o2.trace, o1.diags ++ o2.diags, o2.err⟩ := by
  induction A with
  | nil =>
      intro imports
      rw [List.nil_append]
      simp only [processStmts]
      cases hB : processStmts recur env filename follow B imports with
      | none => simp [hB]
      | some o2 => cases o2; simp [hB]
  | cons stmt rest ih =>
      intro imports
      rw [List.cons_append, processStmts, processStmts]
      cases h1 : handleStmt recur env filename follow stmt imports with
      | none => rfl
      | some o1 =>
          by_cases he : o1.err = true
          · simp only [he, if_true]
          · have he' : o1.err = false := by simpa using he
            simp only [he', Bool.false_eq_true, if_false, ih o1.imports]
            cases hr : processStmts recur env filename follow rest o1.imports with
            | none => rfl
            | some o2 =>
                by_cases he2 : o2.err = true
                · simp only [he2, if_true]
                · have he2' : o2.err = false := by simpa using he2
                  simp only [he2', Bool.false_eq_true, if_false]
                  cases hB : processStmts recur env filename follow B o2.imports with
                  | none => rfl
                  | some o3 => simp [List.append_assoc]

/-- What one visitor callback does to the accumulator when it does not
follow: the raw specifier, if submitted and resolvable, is added unless
already present. -/
def directStep (env : Env) (filename : String) (imports : List String)
    (stmt : ImportStmt) : List String :=
  match stmtSpec stmt with
  | none => imports
  | some s =>
    match resolveImportPath env filename s with
    | none => imports
    | some p => addToSet imports p

/-- The accumulator after a direct (non-follow) pass over the statement
list. -/
def directImports (env : Env) (filename : String) (stmts : List ImportStmt)
    (imports : List String) : List String :=
  stmts.foldl (directStep env filename) imports

/-- The diagnostics one visitor callback prints. -/
def dynDiag (filename : String) : ImportStmt → List Diag
  | .importExprDyn t => [Diag.dynamicImport t filename]
  | _ => []

theorem handleStmt_false (recur : String → List String → Option Out) (env : Env)
    (filename : String) (stmt : ImportStmt) (imports : List String) :
    handleStmt recur env filename false stmt imports =
      some ⟨directStep env filename imports stmt, [], dynDiag filename stmt, false⟩ := by
  cases stmt with
  | importExprDyn t => rfl
  | importExprLit v =>
      simp only [handleStmt, handleRaw, stmtSpec, directStep, dynDiag]
      cases hr : resolveImportPath env filename v with
      | none => simp [hr]
      | some p =>
          simp only [hr, addToSet]
          split <;> simp
  | importDecl v =>
      by_cases hv : v = ""
      · simp [handleStmt, stmtSpec, directStep, dynDiag, hv]
      · simp only [handleStmt, handleRaw, stmtSpec, directStep, dynDiag, if_neg hv]
        cases hr : resolveImportPath env filename v with
        | none => simp [hr]
        | some p =>
            simp only [hr, addToSet]
            split <;> simp
  | exportNamed v =>
      by_cases hv : v = ""
      · simp [handleStmt, stmtSpec, directStep, dynDiag, hv]
      · simp only [handleStmt, handleRaw, stmtSpec, directStep, dynDiag, if_neg hv]
        cases hr : resolveImportPath env filename v with
        | none => simp [hr]
        | some p =>
            simp only [hr, addToSet]
            split <;> simp
  | exportAll v =>
      by_cases hv : v = ""
      · simp [handleStmt, stmtSpec, directStep, dynDiag, hv]
      · simp only [handleStmt, handleRaw, stmtSpec, directStep, dynDiag, if_neg hv]
        cases hr : resolveImportPath env filename v with
        | none => simp [hr]
        | some p =>
            simp only [hr, addToSet]
            split <;> simp

theorem processStmts_false (recur : String → List String → Option Out) (env : Env)
    (filename : String) :
    ∀ stmts imports, ∃ dgs,
      processStmts recur env filename false stmts imports =
        some ⟨directImports env filename stmts imports, [], dgs, false⟩ := by
  intro stmts
  induction stmts with
  | nil =>
      intro imports
      exact ⟨[], rfl⟩
  | cons stmt rest ih =>
      intro imports
      obtain ⟨dgs, hrest⟩ := ih (directStep env filename imports stmt)
      refine ⟨dynDiag filename stmt ++ dgs, ?_⟩
      rw [processStmts, handleStmt_false]
      simp only [Bool.false_eq_true, if_false, hrest]
      rfl

theorem mem_addToSet (acc : List String) (p q : String) :
    q ∈ addToSet acc p ↔ q ∈ acc ∨ q = p := by
  unfold addToSet
  by_cases hc : acc.contains p = true
  · rw [if_pos hc]
    have hp : p ∈ acc := (contains_iff_mem acc p).mp hc
    constructor
    · exact Or.inl
    · rintro (hq | hq)
      · exact hq
      · subst hq; exact hp
  · rw [if_neg hc]
    simp

theorem mem_directImports (env : Env) (filename : String) :
    ∀ stmts imports p,
      p ∈ directImports env filename stmts imports ↔
        p ∈ imports ∨
          ∃ s ∈ directSpecs stmts, resolveImportPath env filename s = some p := by
  intro stmts
  induction stmts with
  | nil =>
      intro imports p
      simp [directImports, directSpecs]
  | cons stmt rest ih =>
      intro imports p
      have step : directImports env filename (stmt :: rest) imports =
          directImports env filename rest (directStep env filename imports stmt) := rfl
      rw [step, ih]
      unfold directStep
      cases hs : stmtSpec stmt with
      | none =>
          simp only [directSpecs, List.filterMap_cons, hs]
      | some s =>
          simp only [directSpecs, List.filterMap_cons, hs]
          cases hr : resolveImportPath env filename s with
          | none =>
              constructor
              · rintro (hp | hp)
                · exact Or.inl hp
                · obtain ⟨t, ht, hres⟩ := hp
                  exact Or.inr ⟨t, List.mem_cons_of_mem s ht, hres⟩
              · rintro (hp | ⟨t, ht, hres⟩)
                · exact Or.inl hp
                · rcases List.mem_cons.mp ht with ht | ht
                  · subst ht
                    rw [hr] at hres
                    cases hres
                  · exact Or.inr ⟨t, ht, hres⟩
          | some q =>
              rw [mem_addToSet]
              constructor
              · rintro ((hp | hp) | hp)
                · exact Or.inl hp
                · subst hp
                  exact Or.inr ⟨s, List.mem_cons_self s _, hr⟩
                · obtain ⟨t, ht, hres⟩ := hp
                  exact Or.inr ⟨t, List.mem_cons_of_mem s ht, hres⟩
              · rintro (hp | ⟨t, ht, hres⟩)
                · exact Or.inl (Or.inl hp)
                · rcases List.mem_cons.mp ht with ht | ht
                  · subst ht
                    rw [hr] at hres
                    injection hres with hres
                    exact Or.inl (Or.inr hres.symm)
                  · exact Or.inr ⟨t, ht, hres⟩

theorem mem_mergeSet : ∀ (l acc : List String) (p : String),
    p ∈ mergeSet acc l → p ∈ acc ∨ p ∈ l := by
  intro l
  induction l with
  | nil =>
      intro acc p hp
      exact Or.inl hp
  | cons x xs ih =>
      intro acc p hp
      have : p ∈ addToSet acc x ∨ p ∈ xs := ih (addToSet acc x) p hp
      rcases this with hp2 | hp2
      · rcases (mem_addToSet acc x p).mp hp2 with hp3 | hp3
        · exact Or.inl hp3
        · refine Or.inr ?_
          rw [hp3]
          exact List.mem_cons_self x xs
      · exact Or.inr (List.mem_cons_of_mem x hp2)

theorem getAllImportsF_fileExists (env : Env) (fuel : Nat) (follow : Bool) :
    ∀ (files acc : List String) (res : List String) (e : Bool),
      (∀ p ∈ acc, fileExists env p = true) →
      getAllImportsF env fuel follow files acc = some (res, e) →
      ∀ p ∈ res, fileExists env p = true := by
  intro files
  induction files with
  | nil =>
      intro acc res e hacc h
      rw [getAllImportsF] at h
      injection h with h
      injection h with h1 h2
      subst h1
      exact hacc
  | cons f rest ih =>
      intro acc res e hacc h
      rw [getAllImportsF] at h
      split at h
      · cases h
      · rename_i o hg
        have good := getImportsF_good env fuel f follow [] o hg
        obtain ⟨ext, hext, hxall⟩ := good.grows
        rw [List.nil_append] at hext
        split at h
        · injection h with h
          injection h with h1 h2
          subst h1
          exact hacc
        · refine ih (mergeSet acc o.imports) res e ?_ h
          intro p hp
          rcases mem_mergeSet o.imports acc p hp with hp2 | hp2
          · exact hacc p hp2
          · rw [hext] at hp2
            exact hxall p hp2

theorem find?_match_append {α : Type} (p : α → Bool) (l1 l2 : List α) :
    (l1 ++ l2).find? p =
      match l1.find? p with
      | some a => some a
      | none => l2.find? p := by
  induction l1 with
  | nil => rfl
  | cons x xs ih =>
      by_cases h : p x = true
      · simp [List.find?_cons, h]
      · simp [List.find?_cons, h, ih]

theorem resolveDirsLoop_eq_find (env : Env) (ip : String) :
    ∀ dirs : List String,
      resolveDirsLoop env ip dirs =
        ((dirs.map (fun d => relativeCandidates d ip)).flatten).find?
          (fun c => fileExists env c) := by
  intro dirs
  induction dirs with
  | nil => rfl
  | cons d rest ih =>
      rw [resolveDirsLoop]
      simp only [List.map_cons, List.flatten_cons, find?_match_append]
      rw [← resolveRelativeImportPath_eq_find, ih]
      cases resolveRelativeImportPath env d ip <;> rfl

theorem handleRaw_hit (recur : String → List String → Option Out) (env : Env)
    (filename : String) (follow : Bool) (rawPath : String) (imports : List String)
    (p : String) (hr : resolveImportPath env filename rawPath = some p)
    (hc : imports.contains p = true) :
    handleRaw recur env filename follow rawPath imports =
      some ⟨imports, [], [], false⟩ := by
  have hm : p ∈ imports := (contains_iff_mem imports p).mp hc
  simp [handleRaw, hr, hm]

theorem handleRaw_follow_new (recur : String → List String → Option Out) (env : Env)
    (filename : String) (rawPath : String) (imports : List String)
    (p : String) (hr : resolveImportPath env filename rawPath = some p)
    (hc : imports.contains p = false) :
    handleRaw recur env filename true rawPath imports = recur p (imports ++ [p]) := by
  have hm : p ∉ imports := by
    intro hmem
    rw [(contains_iff_mem imports p).mpr hmem] at hc
    cases hc
  simp [handleRaw, hr, hm]

theorem handleStmt_decl (recur : String → List String → Option Out) (env : Env)
    (filename : String) (follow : Bool) (s : String) (imports : List String)
    (hs : s ≠ "") :
    handleStmt recur env filename follow (ImportStmt.importDecl s) imports =
      handleRaw recur env filename follow s imports := by
  rw [handleStmt, if_neg hs]

theorem processStmts_single (recur : String → List String → Option Out) (env : Env)
    (filename : String) (follow : Bool) (stmt : ImportStmt)
    (imports : List String) (o1 : Out)
    (h1 : handleStmt recur env filename follow stmt imports = some o1)
    (he : o1.err = false) :
    processStmts recur env filename follow [stmt] imports =
      some ⟨o1.imports, o1.trace, o1.diags, false⟩ := by
  rw [processStmts]
  simp only [h1, he, Bool.false_eq_true, if_false, processStmts]
  simp

theorem getImportsF_step_ok (env : Env) (n : Nat) (filename : String)
    (follow : Bool) (imports : List String) (stmts : List ImportStmt) (o : Out)
    (hm : MODULE_EXTENSIONS.contains (pathExtname filename) = true)
    (hf : env.files filename = .ok stmts)
    (hp : processStmts (fun p im => getImportsF env n p follow im) env
        filename follow stmts imports = some o)
    (he : o.err = false) :
    getImportsF env (n + 1) filename follow imports =
      some ⟨o.imports, filename :: o.trace, o.diags, false⟩ := by
  rw [getImportsF, if_pos hm, hf]
  simp only [hp, he, Bool.false_eq_true, if_false]

/-- Unresolvable-import environment: `a.js` imports one resolvable file,
one missing relative path and one external package name. -/
def env5 : Env :=
  { stat := statOf ["a.js", "ok.js"]
    files := fun f =>
      if f = "a.js" then
        .ok [.importDecl "./ok", .importDecl "./missing", .importDecl "react"]
      else if f = "ok.js" then .ok []
      else .error () }

/-- Parse-failure environment: `good.js` imports `bad.js`, whose read or
parse throws. -/
def env6 : Env :=
  { stat := statOf ["good.js", "bad.js"]
    files := fun f =>
      if f = "good.js" then .ok [.importDecl "./bad"]
      else .error () }

/-- Dynamic-import environment: `a.js` has a non-literal dynamic import
between two resolvable static imports. -/
def env7 : Env :=
  { stat := statOf ["a.js", "ok1.js", "ok2.js"]
    files := fun f =>
      if f = "a.js" then
        .ok [.importDecl "./ok1", .importExprDyn "TemplateLiteral",
             .importDecl "./ok2"]
      else if f = "ok1.js" then .ok []
      else if f = "ok2.js" then .ok []
      else .error () }

/-- Existence-check environment: one present file, one directory, and a
stat that throws everywhere else. -/
def env8 : Env :=
  { stat := fun p =>
      if p = "present.js" then some true
      else if p = "adir" then some false
      else none
    files := fun _ => .error () }

/-- Root-resolution environment: one file under the `app` root and files
under `src`. -/
def env9 : Env :=
  { stat := statOf ["app/u.js", "src/r.js", "src/a.js"]
    files := fun _ => .error () }

/-- Dotfile environment: only `app/.env` exists. -/
def env10 : Env :=
  { stat := statOf ["app/.env"]
    files := fun _ => .error () }

/-- C1, counterexample: in `env1` only `d/x.json` and `d/x/index.js`
exist and every candidate the claim ranks above `d/x.json` is absent, yet
resolution of `x` against root `d` returns `d/x/index.js`, not
`d/x.json`: the extension-inferred json candidate does not beat the
index candidate of an earlier-listed extension. -/
theorem imported_C1_counterexample :
    fileExists env1 "d/x" = false
    ∧ fileExists env1 "d/x.js" = false
    ∧ fileExists env1 "d/x.jsx" = false
    ∧ fileExists env1 "d/x.ts" = false
    ∧ fileExists env1 "d/x.tsx" = false
    ∧ fileExists env1 "d/x.json" = true
    ∧ fileExists env1 "d/x/index.js" = true
    ∧ resolveRelativeImportPath env1 "d" "x" = some "d/x/index.js"
    ∧ ("d/x/index.js" : String) ≠ "d/x.json" := by
  refine ⟨by decide, by decide, by decide, by decide, by decide, by decide,
    by decide, by decide, by decide⟩

/-- C1, amended: the resolver returns the first existing candidate of a
strictly ordered candidate list, but extension-inferred and
index-convention candidates are interleaved per extension: after the
exact match, for each extension in order (js, jsx, ts, tsx, json) the
candidate `root/specifier.ext` is tried and then
`root/specifier/index.ext`; for rooted specifiers the whole per-root
list of the `app` root precedes that of the `packages` root.  In
particular, when `root/specifier.json` and `root/specifier/index.js`
both exist and no earlier candidate does, resolution returns
`root/specifier/index.js`. -/
theorem imported_C1_amended :
    (∀ (env : Env) (d ip : String),
        resolveRelativeImportPath env d ip =
          (relativeCandidates d ip).find? (fun c => fileExists env c))
    ∧ (∀ (env : Env) (f ip : String), startsWithDot ip = false →
        resolveImportPath env f ip =
          ((RESOLVE_DIRS.map (fun d => relativeCandidates d ip)).flatten).find?
            (fun c => fileExists env c))
    ∧ resolveRelativeImportPath env1 "d" "x" = some "d/x/index.js" := by
  refine ⟨resolveRelativeImportPath_eq_find, ?_, by decide⟩
  intro env f ip hd
  rw [resolveImportPath, if_neg (by rw [hd]; exact Bool.false_ne_true),
    resolveDirsLoop_eq_find]

/-- C1, witness for the amended theorem at a concrete rooted specifier. -/
theorem imported_C1_witness :
    resolveImportPath env1 "f.js" "x" =
      ((RESOLVE_DIRS.map (fun d => relativeCandidates d "x")).flatten).find?
        (fun c => fileExists env1 c) :=
  imported_C1_amended.2.1 env1 "f.js" "x" (by decide)

/-- C8: a cache miss performs exactly one stat whose outcome (with a
thrown stat normalized to false) is returned and recorded; a cache hit
returns the recorded boolean with no stat; a thrown stat always
normalizes to false. -/
theorem imported_C8 :
    (∀ (env : Env) (cache : List (String × Bool)) (f : String),
        cache.lookup f = none →
        fileExistsC env cache f = (fileExists env f, (f, fileExists env f) :: cache, 1))
    ∧ (∀ (env : Env) (cache : List (String × Bool)) (f : String) (b : Bool),
        cache.lookup f = some b →
        fileExistsC env cache f = (b, cache, 0))
    ∧ (∀ (env : Env) (f : String), env.stat f = none → fileExists env f = false) := by
  refine ⟨?_, ?_, ?_⟩
  · intro env cache f h
    unfold fileExistsC
    rw [h]
  · intro env cache f b h
    unfold fileExistsC
    rw [h]
  · intro env f h
    unfold fileExists
    rw [h]

/-- C8, witness: in `env8` the first check of `present.js` performs one
stat and caches true, the second check of the same path performs no
stat, and a path whose stat throws reports false. -/
theorem imported_C8_witness :
    fileExistsC env8 [] "present.js" = (true, [("present.js", true)], 1)
    ∧ fileExistsC env8 [("present.js", true)] "present.js" =
        (true, [("present.js", true)], 0)
    ∧ fileExists env8 "nope.js" = false :=
  ⟨imported_C8.1 env8 [] "present.js" rfl,
   imported_C8.2.1 env8 [("present.js", true)] "present.js" true rfl,
   imported_C8.2.2 env8 "nope.js" rfl⟩

/-- C9: a specifier starting with a dot is resolved against the directory
of the importing file only; any other specifier is tried against the
`app` root and then the `packages` root, with the first hit returned and
failure exactly when both roots fail. -/
theorem imported_C9 :
    (∀ (env : Env) (f s : String), startsWithDot s = true →
        resolveImportPath env f s =
          resolveRelativeImportPath env (pathDirname f) s)
    ∧ (∀ (env : Env) (f s r : String), startsWithDot s = false →
        resolveRelativeImportPath env "app" s = some r →
        resolveImportPath env f s = some r)
    ∧ (∀ (env : Env) (f s : String), startsWithDot s = false →
        resolveRelativeImportPath env "app" s = none →
        resolveImportPath env f s = resolveRelativeImportPath env "packages" s)
    ∧ (∀ (env : Env) (f s : String), startsWithDot s = false →
        (resolveImportPath env f s = none ↔
          resolveRelativeImportPath env "app" s = none ∧
            resolveRelativeImportPath env "packages" s = none)) := by
  have hnd : ∀ (s : String), startsWithDot s = false → (startsWithDot s = true) = False := by
    intro s h
    rw [h]
    simp
  refine ⟨?_, ?_, ?_, ?_⟩
  · intro env f s h
    rw [resolveImportPath, if_pos h]
  · intro env f s r h happ
    rw [resolveImportPath, if_neg (by rw [h]; exact Bool.false_ne_true)]
    simp [RESOLVE_DIRS, resolveDirsLoop, happ]
  · intro env f s h happ
    rw [resolveImportPath, if_neg (by rw [h]; exact Bool.false_ne_true)]
    simp [RESOLVE_DIRS, resolveDirsLoop, happ]
    cases resolveRelativeImportPath env "packages" s <;> simp [resolveDirsLoop]
  · intro env f s h
    rw [resolveImportPath, if_neg (by rw [h]; exact Bool.false_ne_true)]
    simp only [RESOLVE_DIRS, resolveDirsLoop]
    cases happ : resolveRelativeImportPath env "app" s <;>
      cases hpkg : resolveRelativeImportPath env "packages" s <;>
      simp [resolveDirsLoop]

/-- C9, witness: a dot specifier resolved relatively, a rooted specifier
found under `app`, and a rooted specifier absent from both roots. -/
theorem imported_C9_witness :
    (resolveImportPath env9 "src/a.js" "./r" =
        resolveRelativeImportPath env9 (pathDirname "src/a.js") "./r")
    ∧ resolveImportPath env9 "src/a.js" "u" = some "app/u.js"
    ∧ (resolveImportPath env9 "src/a.js" "nope" = none ↔
        resolveRelativeImportPath env9 "app" "nope" = none ∧
          resolveRelativeImportPath env9 "packages" "nope" = none) :=
  ⟨imported_C9.1 env9 "src/a.js" "./r" (by decide),
   imported_C9.2.1 env9 "src/a.js" "u" "app/u.js" (by decide) (by decide),
   imported_C9.2.2.2 env9 "src/a.js" "nope" (by decide)⟩

/-- C10: a specifier whose first character is a dot, including a bare
dotfile name such as `.env`, is resolved only against the directory of
the importing file; in `env10` the file `app/.env` exists and would be
found by a rooted search, yet resolution from `src/a.js` fails. -/
theorem imported_C10 :
    (∀ (env : Env) (f : String),
        resolveImportPath env f ".env" =
          resolveRelativeImportPath env (pathDirname f) ".env")
    ∧ startsWithDot ".env" = true
    ∧ fileExists env10 "app/.env" = true
    ∧ resolveRelativeImportPath env10 "app" ".env" = some "app/.env"
    ∧ resolveImportPath env10 "src/a.js" ".env" = none := by
  refine ⟨?_, by decide, by decide, by decide, by decide⟩
  intro env f
  rw [resolveImportPath, if_pos (by decide)]

/-- C2: two module files that import each other and resolve to each
other make `listDependencies` over the first file terminate (fuel three
suffices) with exactly the set containing both files. -/
theorem imported_C2 (env : Env) (A B sA sB : String)
    (hAB : A ≠ B)
    (hextA : MODULE_EXTENSIONS.contains (pathExtname A) = true)
    (hextB : MODULE_EXTENSIONS.contains (pathExtname B) = true)
    (hfA : env.files A = .ok [ImportStmt.importDecl sB])
    (hfB : env.files B = .ok [ImportStmt.importDecl sA])
    (hsB : sB ≠ "") (hsA : sA ≠ "")
    (hrB : resolveImportPath env A sB = some B)
    (hrA : resolveImportPath env B sA = some A) :
    listDependencies env 3 [A] true = some ([B, A], false)
    ∧ ∀ p, p ∈ [B, A] ↔ p = A ∨ p = B := by
  have hcBA : ([B, A] : List String).contains B = true :=
    (contains_iff_mem [B, A] B).mpr (List.mem_cons_self B [A])
  have hcA : ([B] : List String).contains A = false := by
    cases hb : ([B] : List String).contains A with
    | false => rfl
    | true =>
        have := (contains_iff_mem [B] A).mp hb
        simp only [List.mem_singleton] at this
        exact absurd this hAB
  have hcB : ([] : List String).contains B = false := rfl
  -- innermost call: the cycle returns to A, which is re-read but adds nothing
  have e1 : getImportsF env (0 + 1) A true [B, A] =
      some ⟨[B, A], [A], [], false⟩ := by
    refine getImportsF_step_ok env 0 A true [B, A] [ImportStmt.importDecl sB]
      ⟨[B, A], [], [], false⟩ hextA hfA ?_ rfl
    refine processStmts_single _ env A true _ [B, A] ⟨[B, A], [], [], false⟩ ?_ rfl
    rw [handleStmt_decl _ env A true sB [B, A] hsB]
    exact handleRaw_hit _ env A true sB [B, A] B hrB hcBA
  -- middle call: B adds A and expands it
  have e2 : getImportsF env (1 + 1) B true [B] =
      some ⟨[B, A], [B, A], [], false⟩ := by
    refine getImportsF_step_ok env 1 B true [B] [ImportStmt.importDecl sA]
      ⟨[B, A], [A], [], false⟩ hextB hfB ?_ rfl
    refine processStmts_single _ env B true _ [B] ⟨[B, A], [A], [], false⟩ ?_ rfl
    rw [handleStmt_decl _ env B true sA [B] hsA,
      handleRaw_follow_new _ env B sA [B] A hrA hcA]
    exact e1
  -- outer call: A adds B and expands it
  have e3 : getImportsF env (2 + 1) A true [] =
      some ⟨[B, A], [A, B, A], [], false⟩ := by
    refine getImportsF_step_ok env 2 A true [] [ImportStmt.importDecl sB]
      ⟨[B, A], [B, A], [], false⟩ hextA hfA ?_ rfl
    refine processStmts_single _ env A true _ [] ⟨[B, A], [B, A], [], false⟩ ?_ rfl
    rw [handleStmt_decl _ env A true sB [] hsB,
      handleRaw_follow_new _ env A sB [] B hrB hcB]
    exact e2
  have e3' : getImportsF env 3 A true [] =
      some ⟨[B, A], [A, B, A], [], false⟩ := e3
  have hmerge : mergeSet [] [B, A] = [B, A] := by
    show addToSet (addToSet [] B) A = [B, A]
    rw [addToSet, addToSet]
    simp only [hcB, hcA, List.nil_append]
    simp [hAB]
  constructor
  · rw [listDependencies, getAllImportsF]
    simp only [e3', getAllImportsF, Bool.false_eq_true, if_false, hmerge]
  · intro p
    simp only [List.mem_cons, List.mem_singleton, List.not_mem_nil, or_false]
    tauto

/-- C2, witness: the concrete mutual-import environment. -/
theorem imported_C2_witness :
    listDependencies env2 3 ["a.js"] true = some (["b.js", "a.js"], false)
    ∧ ∀ p, p ∈ ["b.js", "a.js"] ↔ p = "a.js" ∨ p = "b.js" :=
  imported_C2 env2 "a.js" "b.js" "./a" "./b" (by decide) (by decide) (by decide)
    rfl rfl (by decide) (by decide) (by decide) (by decide)

/-- C3, counterexample: in the mutual-import environment the follow-mode
traversal from `a.js` reads and parses `a.js` twice — the starting file
is parsed again when the cycle leads back to it, so the claim that no
file is parsed twice, including the starting file, fails. -/
theorem imported_C3_counterexample :
    getImportsF env2 3 "a.js" true [] =
      some ⟨["b.js", "a.js"], ["a.js", "b.js", "a.js"], [], false⟩
    ∧ List.count "a.js" ["a.js", "b.js", "a.js"] = 2 :=
  ⟨by decide, by decide⟩

/-- C3, amended: the accumulator only ever grows, every file other than
the starting file is read and parsed at most once, and the starting file
at most twice (a second time only when a cycle reaches it); the diamond
traversal from `a.js` returns the set with `b.js`, `d.js`, `c.js`, each
read once, `d.js` in particular visited once. -/
theorem imported_C3_amended :
    (∀ (env : Env) (fuel : Nat) (f : String) (follow : Bool)
        (imports : List String) (o : Out),
        getImportsF env fuel f follow imports = some o →
          (∃ ext, o.imports = imports ++ ext)
          ∧ (∀ p, p ≠ f → o.trace.count p ≤ 1)
          ∧ o.trace.count f ≤ 2)
    ∧ getImportsF env3 5 "a.js" true [] =
        some ⟨["b.js", "d.js", "c.js"], ["a.js", "b.js", "d.js", "c.js"], [], false⟩
    ∧ List.count "d.js" ["a.js", "b.js", "d.js", "c.js"] = 1 := by
  refine ⟨?_, by decide, by decide⟩
  intro env fuel f follow imports o h
  have g := getImportsF_good env fuel f follow imports o h
  obtain ⟨ext, hext, _⟩ := g.grows
  exact ⟨⟨ext, hext⟩, g.traceOnce, g.rootTwice⟩

/-- C3, witness for the amended theorem at the diamond environment. -/
theorem imported_C3_witness :
    (∃ ext, (["b.js", "d.js", "c.js"] : List String) = [] ++ ext)
    ∧ (∀ p, p ≠ "a.js" → List.count p ["a.js", "b.js", "d.js", "c.js"] ≤ 1)
    ∧ List.count "a.js" ["a.js", "b.js", "d.js", "c.js"] ≤ 2 :=
  imported_C3_amended.1 env3 5 "a.js" true []
    ⟨["b.js", "d.js", "c.js"], ["a.js", "b.js", "d.js", "c.js"], [], false⟩
    (by decide)

/-- Lexicographic comparison of character lists. -/
def lexLe : List Char → List Char → Bool
  | [], _ => true
  | _ :: _, [] => false
  | x :: xs, y :: ys => if x = y then lexLe xs ys else decide (x < y)

/-- Lexicographic string comparison. -/
def strLe (a b : String) : Bool := lexLe a.data b.data

/-- Whether a list of strings is in lexicographically sorted order. -/
def sortedStr : List String → Bool
  | [] => true
  | [_] => true
  | x :: y :: rest => strLe x y && sortedStr (y :: rest)

/-- C4: in `env4` the `ls-dependencies` command prints the result set in
discovery order, which is not lexicographically sorted, and
`listDependants` walks the module list in the given (glob) order without
sorting, so its result is not lexicographically sorted either; the code
performs no sorting at the cited places. -/
theorem imported_C4_code_bug :
    lsDependenciesOutput env4 1 ["a.js", "b.js"] false =
      some ["z.js", "t.js", "y.js"]
    ∧ sortedStr ["z.js", "t.js", "y.js"] = false
    ∧ listDependantsF env4 1 "t.js" ["b.js", "a.js"] [] =
        some (["b.js", "a.js"], false)
    ∧ sortedStr ["b.js", "a.js"] = false := by
  refine ⟨by decide, by decide, by decide, by decide⟩

/-- C5: every path in a `listDependencies` result passed the existence
check at resolution time, and a direct extraction of a parsed file
returns, beyond the incoming accumulator, exactly the resolvable raw
specifiers of the file — an unresolvable specifier contributes nothing
(and no placeholder) while every resolvable one appears. -/
theorem imported_C5 :
    (∀ (env : Env) (fuel : Nat) (files : List String) (follow : Bool)
        (res : List String) (e : Bool),
        listDependencies env fuel files follow = some (res, e) →
        ∀ p ∈ res, fileExists env p = true)
    ∧ (∀ (env : Env) (fuel : Nat) (f : String) (stmts : List ImportStmt)
        (imports : List String) (o : Out),
        MODULE_EXTENSIONS.contains (pathExtname f) = true →
        env.files f = .ok stmts →
        getImportsF env (fuel + 1) f false imports = some o →
        o.err = false ∧
          ∀ p, p ∈ o.imports ↔
            p ∈ imports ∨
              ∃ s ∈ directSpecs stmts, resolveImportPath env f s = some p) := by
  constructor
  · intro env fuel files follow res e h
    exact getAllImportsF_fileExists env fuel follow files [] res e (by simp) h
  · intro env fuel f stmts imports o hm hf h
    obtain ⟨dgs, hp⟩ :=
      processStmts_false (fun p im => getImportsF env fuel p false im) env f
        stmts imports
    have hexp : getImportsF env (fuel + 1) f false imports =
        some ⟨directImports env f stmts imports, [f], dgs, false⟩ := by
      rw [getImportsF, if_pos hm, hf]
      simp only [hp, Bool.false_eq_true, if_false]
    rw [hexp] at h
    injection h with h
    subst h
    exact ⟨rfl, fun p => mem_directImports env f stmts imports p⟩

/-- C5, witness: in `env5` the missing relative path and the external
package name contribute nothing while the resolvable import appears, and
every returned path exists. -/
theorem imported_C5_witness :
    (∀ p ∈ (["ok.js"] : List String), fileExists env5 p = true)
    ∧ ((false : Bool) = false ∧
        ∀ p, p ∈ (["ok.js"] : List String) ↔
          p ∈ ([] : List String) ∨
            ∃ s ∈ directSpecs
              [ImportStmt.importDecl "./ok", ImportStmt.importDecl "./missing",
               ImportStmt.importDecl "react"],
              resolveImportPath env5 "a.js" s = some p) :=
  ⟨imported_C5.1 env5 1 ["a.js"] false ["ok.js"] false (by decide),
   imported_C5.2 env5 0 "a.js"
     [ImportStmt.importDecl "./ok", ImportStmt.importDecl "./missing",
      ImportStmt.importDecl "react"] []
     ⟨["ok.js"], ["a.js"], [], false⟩ (by decide) rfl (by decide)⟩

/-- C6: an extraction call propagates an exception exactly when the read
or parse of some file it processed failed, and in that case the
parse-error diagnostic naming that exact file was emitted before the
error was re-raised. -/
theorem imported_C6 :
    ∀ (env : Env) (fuel : Nat) (f : String) (follow : Bool)
      (imports : List String) (o : Out),
      getImportsF env fuel f follow imports = some o →
        (o.err = true ↔ ∃ g ∈ o.trace, isErr (env.files g) = true)
        ∧ (o.err = true →
            ∃ g ∈ o.trace, isErr (env.files g) = true ∧
              Diag.parseError g ∈ o.diags) := by
  intro env fuel f follow imports o h
  have g := getImportsF_good env fuel f follow imports o h
  exact ⟨g.errIff, g.errDiag⟩

/-- C6, witness: in `env6` the extraction of `good.js` reaches `bad.js`,
whose read fails; the run errors, and the diagnostic naming `bad.js` was
emitted. -/
theorem imported_C6_witness :
    ((true : Bool) = true ↔
      ∃ g ∈ ["good.js", "bad.js"], isErr (env6.files g) = true)
    ∧ ((true : Bool) = true →
        ∃ g ∈ ["good.js", "bad.js"], isErr (env6.files g) = true ∧
          Diag.parseError g ∈
            [Diag.parseError "bad.js", Diag.parseError "good.js"]) :=
  imported_C6 env6 2 "good.js" true []
    ⟨["bad.js"], ["good.js", "bad.js"],
     [Diag.parseError "bad.js", Diag.parseError "good.js"], true⟩ (by decide)

/-- C7: a dynamic import whose argument is not a plain string literal
only emits the unexpected-type diagnostic: inserting it into a statement
list changes neither the accumulator, nor the reads, nor the error
outcome of processing, and the diagnostic is inserted between those of
the surrounding statements. -/
theorem imported_C7 (env : Env) (recur : String → List String → Option Out)
    (filename : String) (follow : Bool) (L1 L2 : List ImportStmt) (t : String)
    (imports : List String) (oA oB : Out)
    (hoA : processStmts recur env filename follow L1 imports = some oA)
    (heA : oA.err = false)
    (hoB : processStmts recur env filename follow L2 oA.imports = some oB) :
    processStmts recur env filename follow
        (L1 ++ ImportStmt.importExprDyn t :: L2) imports =
      some ⟨oB.imports, oA.trace ++ oB.trace,
            oA.diags ++ Diag.dynamicImport t filename :: oB.diags, oB.err⟩
    ∧ processStmts recur env filename follow (L1 ++ L2) imports =
      some ⟨oB.imports, oA.trace ++ oB.trace, oA.diags ++ oB.diags, oB.err⟩
    ∧ handleStmt recur env filename follow (ImportStmt.importExprDyn t) imports =
      some ⟨imports, [], [Diag.dynamicImport t filename], false⟩ := by
  have hdynstep : processStmts recur env filename follow
      (ImportStmt.importExprDyn t :: L2) oA.imports =
        some ⟨oB.imports, oB.trace,
              Diag.dynamicImport t filename :: oB.diags, oB.err⟩ := by
    rw [processStmts, handleStmt]
    simp only [Bool.false_eq_true, if_false, hoB]
    simp
  refine ⟨?_, ?_, rfl⟩
  · rw [processStmts_append, hoA]
    simp only [heA, Bool.false_eq_true, if_false, hdynstep]
  · rw [processStmts_append, hoA]
    simp only [heA, Bool.false_eq_true, if_false, hoB]

/-- C7, witness: concrete statement lists around a template-literal
dynamic import in `env7`. -/
theorem imported_C7_witness :
    processStmts (fun _ _ => none) env7 "a.js" false
        ([ImportStmt.importDecl "./ok1"] ++
          ImportStmt.importExprDyn "TemplateLiteral" ::
            [ImportStmt.importDecl "./ok2"]) [] =
      some ⟨["ok1.js", "ok2.js"], [] ++ [],
            [] ++ Diag.dynamicImport "TemplateLiteral" "a.js" :: [], false⟩
    ∧ processStmts (fun _ _ => none) env7 "a.js" false
        ([ImportStmt.importDecl "./ok1"] ++ [ImportStmt.importDecl "./ok2"]) [] =
      some ⟨["ok1.js", "ok2.js"], [] ++ [], [] ++ [], false⟩
    ∧ handleStmt (fun _ _ => none) env7 "a.js" false
        (ImportStmt.importExprDyn "TemplateLiteral") [] =
      some ⟨[], [], [Diag.dynamicImport "TemplateLiteral" "a.js"], false⟩ :=
  imported_C7 env7 (fun _ _ => none) "a.js" false
    [ImportStmt.importDecl "./ok1"] [ImportStmt.importDecl "./ok2"]
    "TemplateLiteral" [] ⟨["ok1.js"], [], [], false⟩
    ⟨["ok1.js", "ok2.js"], [], [], false⟩ (by decide) rfl (by decide)

-- Behavior checks of the path model against Node posix path semantics.
example : pathJoin [".", "./b.js"] = "b.js" := by decide
example : pathJoin ["d", "x", "index.js"] = "d/x/index.js" := by rfl
example : pathJoin ["d", "../x"] = "x" := by decide
example : pathDirname "a.js" = "." := by decide
example : pathDirname "src/a.js" = "src" := by decide
example : pathExtname "a.js" = ".js" := by decide
example : pathExtname ".env" = "" := by decide
example : pathExtname "foo.d.ts" = ".ts" := by decide
example : pathExtname "foo" = "" := by decide
example : startsWithDot "./a" = true := by decide
example : startsWithDot ".env" = true := by decide
example : startsWithDot "app/x" = false := by decide
example : (["a.js"] : List String).contains "a.js" = true := by decide
example : (["a.js"] : List String).contains "b.js" = false := by decide
example : ([("p", true)] : List (String × Bool)).lookup "p" = some true := by decide
example : pathJoin ["app", ".env"] = "app/.env" := by decide
example : pathJoin [".", "./b"] = "b" := by decide
example : MODULE_EXTENSIONS.contains (pathExtname "a.js") = true := by decide

end Imported
